import Mathlib

/-
Shallow Lean embedding of the tile-traversal and bound-layer-compositor core of
the vts-browser-cpp repository, together with theorems settling the spec claims.

Embedded source functions:
  - BoundParamInfo::uvMatrix and BoundParamInfo::prepare
    (src/browser/src/vts-browser-lib/mapUtilities.cpp)
  - TilesetMapping::update (same file)
  - MapImpl::travDistance and MapImpl::computeResourcePriority (same file)
  - CameraImpl::travDetermineMeta (metatile fetch gating and surface selection),
    CameraImpl::updateNodePriority, CameraImpl::travDetermineDraws,
    travDetermineDrawsSurface, travDetermineDrawsGeodata, and the traversal
    strategies travModeFlat / travModeBalanced / travModeStable
    (src/browser/src/vts-libbrowser/camera/traversal.cpp)
  - Mesh::load (src/browser/src/vts-librenderer/classes.cpp)

Machine doubles are modelled by ℚ: every arithmetic operation these claims
touch (powers of two, their reciprocals, and products with small integers)
is exact in binary64, so the rational model agrees with the C++ doubles.
Machine integer narrowing is modelled explicitly with % 2^16 where it occurs.
-/

namespace Vts

/-- Resource validity, as the source enum `Validity`. -/
inductive Validity where
  | valid
  | indeterminate
  | invalid
deriving DecidableEq

/-- Tile identifier `(lod, x, y)`; coordinates are nonnegative machine ints. -/
structure TileId where
  lod : Nat
  x : Nat
  y : Nat
deriving DecidableEq

/-- URL-template variables: the global tile id plus the id local to the
reference-frame subtree (`UrlTemplate::Vars`). -/
structure UrlVars where
  tileId : TileId
  localId : TileId
deriving DecidableEq

/-- Zero-initialised vars, as in the `BoundParamInfo` constructor (`orig(0), vars(0)`). -/
def UrlVars.zero : UrlVars := ⟨⟨0, 0, 0⟩, ⟨0, 0, 0⟩⟩

/-- The per-bound-layer configuration data consulted by `BoundParamInfo::prepare`:
`lodRange`, `tileRange` (inclusive corners ll/ur), whether a `metaUrl` is
configured, and the `isTransparent` flag. -/
structure BoundInfo where
  lodRangeMin : Nat
  lodRangeMax : Nat
  tileRangeLoX : Nat
  tileRangeLoY : Nat
  tileRangeHiX : Nat
  tileRangeHiY : Nat
  hasMetaUrl : Bool
  isTransparent : Bool
deriving DecidableEq

/-- A 3×3 matrix of exact reals, row major (`mat3f` in the source; all entries
produced by `uvMatrix` are exactly representable dyadic rationals). -/
structure Mat3 where
  m00 : ℚ
  m01 : ℚ
  m02 : ℚ
  m10 : ℚ
  m11 : ℚ
  m12 : ℚ
  m20 : ℚ
  m21 : ℚ
  m22 : ℚ
deriving DecidableEq

/-- The 3×3 identity (`upperLeftSubMatrix(identityMatrix())`). -/
def identityMat3 : Mat3 := ⟨1, 0, 0, 0, 1, 0, 0, 0, 1⟩

/-- The mutable fields of `BoundParamInfo` written by `prepare` and read by
`uvMatrix`: `depth`, `orig`, `vars`, `watertight`, `transparent`. -/
structure BoundParamState where
  depth : Nat
  orig : UrlVars
  vars : UrlVars
  watertight : Bool
  transparent : Bool
deriving DecidableEq

/-- Constructor state of `BoundParamInfo`: `orig(0), vars(0), depth(0),
watertight(true), transparent(false)`. -/
def boundParamInit : BoundParamState := ⟨0, UrlVars.zero, UrlVars.zero, true, false⟩

/-- Embedding of `BoundParamInfo::uvMatrix`: identity at depth 0, otherwise the
ancestor-quadrant matrix with `scale = 1/(1<<depth)` built from `orig.localId`. -/
def uvMatrix (b : BoundParamState) : Mat3 :=
  if b.depth = 0 then identityMat3
  else
    let scale : ℚ := 1 / (((1 <<< b.depth : Nat) : ℚ))
    let tx : ℚ := scale * ((b.orig.localId.x : ℚ)
                   - (((b.orig.localId.x >>> b.depth) <<< b.depth : Nat) : ℚ))
    let ty0 : ℚ := scale * ((b.orig.localId.y : ℚ)
                   - (((b.orig.localId.y >>> b.depth) <<< b.depth : Nat) : ℚ))
    let ty : ℚ := 1 - scale - ty0
    ⟨scale, 0, tx, 0, scale, ty, 0, 0, 1⟩

/-- Modelled from the spec: `BoundLayer::MetaFlags` of the external vtslibs
registry library; the bound-layer metatile byte has bit 0 = `available`,
bit 1 = `watertight`. The claims do not depend on the concrete bit values. -/
def metaFlagAvailable : Nat := 1

/-- Modelled from the spec: the `watertight` bit of the bound-layer metatile byte. -/
def metaFlagWatertight : Nat := 2

/-- Result of `BoundParamInfo::prepare`: the returned `Validity`, the object
state after the call, and whether the bound metatile resource was requested
(`impl->getBoundMetaTile` reached); the flag makes the fetch observable. -/
structure PrepareResult where
  validity : Validity
  state : BoundParamState
  boundMetaFetched : Bool
deriving DecidableEq

/-- Embedding of `BoundParamInfo::prepare`. Inputs: the bound-layer info found
by `getBoundInfo` (`none` when the layer is not yet known), the tile's id and
local id, the optional view `alpha`, and an oracle for the bound metatile
resource (its validity and its 256×256 flag grid, indexed as in the source).
Credits and url formation are external; the priority write is cache-side. -/
def prepare (bound : Option BoundInfo) (nodeId localId : TileId) (alpha : Option ℚ)
    (bmtValidity : Validity) (bmtFlags : Nat → Nat) : PrepareResult :=
  match bound with
  | none => ⟨.indeterminate, boundParamInit, false⟩
  | some b =>
    -- check lodRange and tileRange
    if nodeId.lod < b.lodRangeMin then ⟨.invalid, boundParamInit, false⟩
    else
      let sx := nodeId.x >>> (nodeId.lod - b.lodRangeMin)
      let sy := nodeId.y >>> (nodeId.lod - b.lodRangeMin)
      if sx < b.tileRangeLoX ∨ b.tileRangeHiX < sx then ⟨.invalid, boundParamInit, false⟩
      else if sy < b.tileRangeLoY ∨ b.tileRangeHiY < sy then ⟨.invalid, boundParamInit, false⟩
      else
        let origVars : UrlVars := ⟨nodeId, localId⟩
        -- depth = std::max(lod - lodRange.max, 0); ℕ-subtraction is that max
        let depth : Nat := nodeId.lod - b.lodRangeMax
        let vars : UrlVars :=
          if 0 < depth then
            ⟨⟨nodeId.lod - depth, nodeId.x >>> depth, nodeId.y >>> depth⟩,
             ⟨localId.lod - depth, localId.x >>> depth, localId.y >>> depth⟩⟩
          else origVars
        let st : BoundParamState := ⟨depth, origVars, vars, true, false⟩
        let transp : Bool := b.isTransparent ||
          (match alpha with | some a => decide (a < 1) | none => false)
        if b.hasMetaUrl then
          match bmtValidity with
          | .indeterminate => ⟨.indeterminate, st, true⟩
          | .invalid => ⟨.invalid, st, true⟩
          | .valid =>
            let f := bmtFlags ((vars.tileId.y &&& 255) * 256 + (vars.tileId.x &&& 255))
            if f &&& metaFlagAvailable ≠ metaFlagAvailable then ⟨.invalid, st, true⟩
            else
              ⟨.valid,
               { st with
                  watertight := f &&& metaFlagWatertight = metaFlagWatertight,
                  transparent := transp }, true⟩
        else ⟨.valid, { st with transparent := transp }, false⟩

/-- The part of `GpuMeshSpec` consumed by `Mesh::load` for the element buffer:
the index count and the 32-bit index values stored in the `indices` buffer. -/
structure GpuMeshSpec where
  verticesCount : Nat
  indicesCount : Nat
  indices : List Nat
deriving DecidableEq

/-- Embedding of the element-buffer upload in `Mesh::load`
(src/vts-librenderer/classes.cpp): when `indicesCount` is nonzero the
uploaded buffer holds, for each 32-bit index, its value narrowed to
`uint16_t` (C++ integral conversion, i.e. reduction modulo 2^16); when it is
zero no element buffer is created. There is no failure path. -/
def meshLoadIndexBuffer (spec : GpuMeshSpec) : Option (List Nat) :=
  if spec.indicesCount ≠ 0 then
    some (((spec.indices.take spec.indicesCount)).map (fun i => i % 65536))
  else none

/-- The value of `vtslibs::vts::MetaNode::Flag::ulChild` in the external
vtslibs library (bit 4 of the metanode flags word); the child-availability
bits are `ulChild << i` for child index `i`. The claims that use it are
insensitive to the concrete value. -/
def ulChildFlag : Nat := 16

/-- Child index of tile `(x, y)` within its parent, as computed in
`travDetermineMeta`: `idx = (x % 2) + (y % 2) * 2`. -/
def childIndexInParent (x y : Nat) : Nat := x % 2 + (y % 2) * 2

/-- Embedding of the metatile-slot initialisation in `travDetermineMeta` for a
non-root node: slot `i` of the child receives a metatile fetch handle
(modelled as `some i`, standing for `getMetaTile` on surface `i`'s url) only
when the parent holds a metatile in slot `i` (its metanode flags word is given
as `some flags`) and that metanode's flags have the bit `ulChild << idx` set,
where `idx` is the child's index within the parent; otherwise the slot stays
`none` and no fetch is issued. -/
def initChildMetaSlots (parentSlotFlags : List (Option Nat)) (nodeId : TileId) :
    List (Option Nat) :=
  (List.range parentSlotFlags.length).map (fun i =>
    match parentSlotFlags.getD i none with
    | none => none
    | some fl =>
      if fl &&& (ulChildFlag <<< childIndexInParent nodeId.x nodeId.y) = 0 then none
      else some i)

/-- A surface-stack entry as far as the surface-selection in
`travDetermineMeta` consults it: an identifying payload (url templates,
name, colour are abstracted into `surfId`) and the `alien` flag. -/
structure SurfaceInfo where
  surfId : Nat
  alien : Bool
deriving DecidableEq

/-- The metanode fields consulted by the surface selection: `geometry()`,
`alien()`, `sourceReference`. -/
structure MetaNodeRec where
  geometry : Bool
  alien : Bool
  sourceReference : Nat
deriving DecidableEq

/-- The placeholder entry that `TilesetMapping::update` pushes first
(`surfaceStack.push_back(MapConfig::SurfaceStackItem())`), because the
`sourceReference` in metanodes is one-based. -/
def placeholderSurface : SurfaceInfo := ⟨0, false⟩

/-- Embedding of the stack layout produced by `TilesetMapping::update`: a
placeholder at index 0 followed by the per-tileset entries in order (the
construction of each entry from `findSurface`/`findGlue` is an external
mapconfig lookup; `entries` are the constructed items). -/
def buildTilesetStack (entries : List SurfaceInfo) : List SurfaceInfo :=
  placeholderSurface :: entries

/-- Embedding of the `find topmost nonempty surface` loop of
`travDetermineMeta`, restricted to the `topmost` selection: the list pairs
each surface of the layer's surface stack with the metanode its (available)
metatile holds for the current tile, `none` when the slot has no metatile.
Entries are skipped while the metatile is missing, the alien flags disagree,
or the metanode has no geometry; at the first remaining entry the rendered
surface is `tilesetStack->surfaces[sourceReference]` when a tileset stack is
present, and the current surface of the surface stack otherwise. -/
def selectSurface (tilesetStack : Option (List SurfaceInfo)) :
    List (SurfaceInfo × Option MetaNodeRec) → Option SurfaceInfo
  | [] => none
  | (s, mn) :: rest =>
    match mn with
    | none => selectSurface tilesetStack rest
    | some n =>
      if n.alien ≠ s.alien then selectSurface tilesetStack rest
      else if n.geometry then
        some (match tilesetStack with
          | some ts => ts.getD n.sourceReference placeholderSurface
          | none => s)
      else selectSurface tilesetStack rest

/-- A pair is passed over by the surface-selection loop: no metatile, alien
mismatch, or no geometry. -/
def skipsPair (p : SurfaceInfo × Option MetaNodeRec) : Bool :=
  match p.2 with
  | none => true
  | some n => decide (n.alien ≠ p.1.alien) || !n.geometry

/-- A resolved bound-layer entry as the draw classification in
`travDetermineDrawsSurface` consults it: the `transparent` flag computed by
`prepare`, whether a `textureMask` resource is attached, and the layer id. -/
structure BoundParam where
  transparent : Bool
  hasMask : Bool
  layerId : Nat
deriving DecidableEq

/-- The initial value of `anyOpaqueLayer`: some resolved layer is neither
transparent nor mask-carrying. -/
def anyPlainLayerInit (bls : List BoundParam) : Bool :=
  bls.any (fun b => !b.transparent && !b.hasMask)

/-- The per-layer classification loop of `travDetermineDrawsSurface`, with the
running `anyOpaqueLayer` flag as accumulator: each layer is tagged with its
`renderTransparent` decision (`true` = transparent draw list). A
non-transparent mask-carrying layer is rendered transparent when the flag is
already set, and otherwise rendered on the first list while setting the flag. -/
def classifyGo (anyPlain : Bool) : List BoundParam → List (BoundParam × Bool)
  | [] => []
  | b :: rest =>
    if b.transparent then (b, true) :: classifyGo anyPlain rest
    else if b.hasMask then
      if anyPlain then (b, true) :: classifyGo anyPlain rest
      else (b, false) :: classifyGo true rest
    else (b, false) :: classifyGo anyPlain rest

/-- Full classification of a resolved bound-layer list, seeding the
accumulator as the source does by scanning the whole list. -/
def classifyBoundLayers (bls : List BoundParam) : List (BoundParam × Bool) :=
  classifyGo (anyPlainLayerInit bls) bls

/-- A draw task produced by `travDetermineDrawsSurface` for one submesh:
either a bound-layer task or the internal-texture task. -/
inductive STask where
  | boundTask (layerId : Nat)
  | internalTask
deriving DecidableEq

/-- The data of one submesh (`MeshPart` plus the outcome of
`reorderBoundLayers` and the resources it resolves): the uv flags, the
resolved bound-layer list with its validity, the resource handles pinned for
the bound layers, and the internal texture resource with its validity. -/
structure SubmeshData where
  externalUv : Bool
  internalUv : Bool
  blsValidity : Validity
  bls : List BoundParam
  boundResIds : List Nat
  intTexResId : Nat
  intTexValidity : Validity
deriving DecidableEq

/-- Accumulator of the submesh loop: the new draw lists, the `determined`
flag, and the resources pinned so far. -/
structure SubAcc where
  opaq : List STask
  transp : List STask
  det : Bool
  res : List Nat
deriving DecidableEq

/-- The internal-texture tail of one submesh iteration: when the submesh has
internal uvs, pin the texture, then drop the submesh on invalid, mark
undetermined on indeterminate, and otherwise insert the task at the front of
the first draw list. -/
def internalStep (sm : SubmeshData) (acc : SubAcc) : SubAcc :=
  if sm.internalUv then
    let acc := { acc with res := acc.res ++ [sm.intTexResId] }
    match sm.intTexValidity with
    | .indeterminate => { acc with det := false }
    | .invalid => acc
    | .valid => { acc with opaq := STask.internalTask :: acc.opaq }
  else acc

/-- One iteration of the submesh loop of `travDetermineDrawsSurface`: with
external uvs, pin the bound resources, branch on the bound-layer validity,
append the classified tasks to the draw lists and reach the internal texture
only when every bound layer is transparent. -/
def submeshStep (sm : SubmeshData) (acc : SubAcc) : SubAcc :=
  if sm.externalUv then
    let acc := { acc with res := acc.res ++ sm.boundResIds }
    match sm.blsValidity with
    | .indeterminate => { acc with det := false }
    | .invalid => acc
    | .valid =>
      let cls := classifyBoundLayers sm.bls
      let acc := { acc with
        opaq := acc.opaq ++
          (cls.filter (fun p => !p.2)).map (fun p => STask.boundTask p.1.layerId),
        transp := acc.transp ++
          (cls.filter (fun p => p.2)).map (fun p => STask.boundTask p.1.layerId) }
      if sm.bls.all (fun b => b.transparent) then internalStep sm acc
      else acc
  else internalStep sm acc

/-- The mutable `TraverseNode` fields read and written by
`travDetermineDraws`: the layer kind, the chosen surface (`none` = cleared),
the `determined` flag, the draw lists, the pinned resources, and the node
priority. Credits bookkeeping is omitted. -/
structure TravNodeState where
  isGeodata : Bool
  surface : Option Nat
  determined : Bool
  opaq : List STask
  transp : List STask
  geodata : List Nat
  colliders : List Nat
  resources : List Nat
  priority : ℚ
deriving DecidableEq

/-- External state consumed by `travDetermineDrawsSurface`: the mesh-aggregate
resource (handle id and validity), the submeshes it decodes to, and the
validity of the resources the node pinned on an earlier attempt. -/
structure SurfaceDrawsOracle where
  meshAggId : Nat
  meshAggValidity : Validity
  submeshes : List SubmeshData
  pinnedValidity : Nat → Validity

/-- Embedding of `travDetermineDrawsSurface`: wait while a previously pinned
resource is still indeterminate, then re-pin the mesh aggregate; an invalid
aggregate clears the surface and the pins; a valid one runs the submesh loop
and commits the draw lists only when everything was determined. -/
def travDetermineDrawsSurface (n : TravNodeState) (o : SurfaceDrawsOracle) :
    TravNodeState × Bool :=
  if n.resources.any (fun r => o.pinnedValidity r = .indeterminate) then (n, false)
  else
    match o.meshAggValidity with
    | .invalid => ({ n with surface := none, resources := [] }, false)
    | .indeterminate => ({ n with resources := [o.meshAggId] }, false)
    | .valid =>
      let acc := o.submeshes.foldl (fun a sm => submeshStep sm a)
        ⟨[], [], true, [o.meshAggId]⟩
      if acc.det then
        ({ n with
            opaq := acc.opaq,
            transp := acc.transp,
            colliders := List.range o.submeshes.length,
            resources := acc.res }, true)
      else ({ n with resources := acc.res }, false)

/-- External state consumed by `travDetermineDrawsGeodata`: the validities of
the style, the features and the geodata tile, and the number of renders the
geodata tile decodes to. -/
structure GeodataDrawsOracle where
  styleValidity : Validity
  featuresValidity : Validity
  geoValidity : Validity
  geoRenderCount : Nat

/-- Embedding of `travDetermineDrawsGeodata`: an invalid style or features
resource clears the surface; pending ones leave the node untouched; an
invalid geodata tile clears the surface; a valid one copies its renders. -/
def travDetermineDrawsGeodata (n : TravNodeState) (o : GeodataDrawsOracle) :
    TravNodeState × Bool :=
  if o.styleValidity = .invalid ∨ o.featuresValidity = .invalid then
    ({ n with surface := none }, false)
  else if o.styleValidity = .indeterminate ∨ o.featuresValidity = .indeterminate then
    (n, false)
  else
    match o.geoValidity with
    | .invalid => ({ n with surface := none }, false)
    | .indeterminate => (n, false)
    | .valid => ({ n with geodata := List.range o.geoRenderCount }, true)

/-- External state for a `travDetermineDraws` call: the two per-kind oracles
and the priority `updateNodePriority` would assign. -/
structure DrawsOracle where
  surf : SurfaceDrawsOracle
  geo : GeodataDrawsOracle
  newPriority : ℚ

/-- Embedding of `travDetermineDraws`: `touchDraws` only refreshes the cache,
then a node without surface or already determined returns its `determined`
flag unchanged; otherwise the priority is updated and the per-kind routine
runs, its result being stored in `determined` and returned. -/
def travDetermineDraws (n : TravNodeState) (o : DrawsOracle) : TravNodeState × Bool :=
  if n.surface.isNone || n.determined then (n, n.determined)
  else
    let n1 := { n with priority := o.newPriority }
    let pr := if n.isGeodata then travDetermineDrawsGeodata n1 o.geo
              else travDetermineDrawsSurface n1 o.surf
    ({ pr.1 with determined := pr.2 }, pr.2)

/-- The traverse-mode enum (`TraverseMode`). -/
inductive TraverseMode where
  | none
  | flat
  | stable
  | balanced
  | hierarchical
  | fixed
  | distanceBaseFixed
deriving DecidableEq

/-- A point or corner in 3-space over exact reals. -/
structure Vec3q where
  x : ℚ
  y : ℚ
  z : ℚ
deriving DecidableEq

/-- Per-axis excess of a coordinate over an interval: `max(max(l - v, v - h), 0)`. -/
def axisExcess (v l h : ℚ) : ℚ := max (max (l - v) (v - h)) 0

/-- Modelled from the spec: `aabbPointDist` lives in the math utilities, an
external collaborator; the spec describes it as the squared-axis
axis-aligned-box distance from a point to a box. -/
def aabbPointDist (p lo hi : Vec3q) : ℚ :=
  axisExcess p.x lo.x hi.x ^ 2 + axisExcess p.y lo.y hi.y ^ 2
    + axisExcess p.z lo.z hi.z ^ 2

/-- Embedding of `CameraImpl::travDistance` (camera/traversal.cpp): the
distance from the focus point to the node's physical-SRS bounding box. -/
def camTravDistance (pointPhys aabbLo aabbHi : Vec3q) : ℚ :=
  aabbPointDist pointPhys aabbLo aabbHi

/-- Embedding of `CameraImpl::updateNodePriority`: with meta populated the
priority is `1e6 / (travDistance(trav, focusPosPhys) + 1)`; otherwise the
parent's priority is inherited, or 0 at the root. -/
def updateNodePriority (hasMeta : Bool) (parentPriority : Option ℚ)
    (focusPosPhys aabbLo aabbHi : Vec3q) : ℚ :=
  if hasMeta then 1000000 / (camTravDistance focusPosPhys aabbLo aabbHi + 1)
  else
    match parentPriority with
    | some p => p
    | none => 0

/-- Inputs of `MapImpl::travDistance` (mapUtilities.cpp): the emptiness tests
on `geomExtents` and the node SRS, the `debugDisableMeta5` option, the focus
point converted into the node SRS (the conversion is an external
collaborator), the node-SRS extents box completed with the geometric z range,
and the physical point and box. -/
structure TravDistArgs where
  geomExtentsNonempty : Bool
  nodeSrsNonempty : Bool
  debugDisableMeta5 : Bool
  pointInNodeSrs : Vec3q
  extentsLo : Vec3q
  extentsHi : Vec3q
  pointPhys : Vec3q
  aabbLo : Vec3q
  aabbHi : Vec3q

/-- Embedding of `MapImpl::travDistance`: the node-SRS box with geometric
extents is used when available and `debugDisableMeta5` is off, the
physical-SRS box otherwise. -/
def mapTravDistance (a : TravDistArgs) : ℚ :=
  if a.geomExtentsNonempty && a.nodeSrsNonempty && !a.debugDisableMeta5 then
    aabbPointDist a.pointInNodeSrs a.extentsLo a.extentsHi
  else aabbPointDist a.pointPhys a.aabbLo a.aabbHi

/-- Embedding of `MapImpl::computeResourcePriority`: `100 / lod` in
Hierarchical traverse mode, and `1e6 / (travDistance + 1)` otherwise. -/
def computeResourcePriority (mode : TraverseMode) (lod : Nat) (a : TravDistArgs) : ℚ :=
  if mode = TraverseMode.hierarchical then 100 / (lod : ℚ)
  else 1000000 / (mapTravDistance a + 1)

/-- All-zero distance arguments, used to evaluate the priority formulas at a
concrete input (focus point inside the box, distance 0). -/
def zeroTravDistArgs : TravDistArgs :=
  ⟨false, false, false, ⟨0, 0, 0⟩, ⟨0, 0, 0⟩, ⟨0, 0, 0⟩, ⟨0, 0, 0⟩, ⟨0, 0, 0⟩, ⟨0, 0, 0⟩⟩

/-- The per-node observations the traversal strategies branch on, for one
frame with the resource state frozen: the outcome of `travInit`, whether
`meta` is populated, the frustum test `visibilityTest`, the `coarsenessTest`,
the `determined` flag, whether a surface is chosen, and the outcome of the
draw computation when `travDetermineDraws` attempts it. -/
structure TravData where
  initOk : Bool
  hasMeta : Bool
  visible : Bool
  coarse : Bool
  determined : Bool
  hasSurface : Bool
  drawsOk : Bool
deriving DecidableEq

mutual
/-- A `TraverseNode` subtree: the node's observations plus its children. -/
inductive TravTree : Type where
  | mk : TravData → TravForest → TravTree
/-- The `childs` array of a `TraverseNode`. -/
inductive TravForest : Type where
  | nil : TravForest
  | cons : TravTree → TravForest → TravForest
end

/-- The observations at the root of a subtree. -/
def TravTree.data : TravTree → TravData
  | .mk d _ => d

/-- The children of the root of a subtree. -/
def TravTree.childs : TravTree → TravForest
  | .mk _ c => c

/-- Whether a `childs` array is empty (`trav->childs.empty()`). -/
def TravForest.isEmpty : TravForest → Bool
  | .nil => true
  | .cons _ _ => false

/-- The boolean returned by `travDetermineDraws` under frozen resources: the
current `determined` when the node has no surface or is already determined,
and the outcome of the draw computation otherwise. -/
def detDraws (d : TravData) : Bool :=
  if !d.hasSurface || d.determined then d.determined else d.drawsOk

mutual
/-- Embedding of `CameraImpl::travModeFlat` under frozen resources, returning
the list of nodes on which `renderNode` is invoked, in order. -/
def flatRender : TravTree → List TravTree
  | .mk d cs =>
    if !d.initOk then []
    else if !d.visible then []
    else if d.coarse || cs.isEmpty then
      if detDraws d then [TravTree.mk d cs] else []
    else flatRenderForest cs
/-- The child loop of `travModeFlat`. -/
def flatRenderForest : TravForest → List TravTree
  | .nil => []
  | .cons t f => flatRender t ++ flatRenderForest f
end

/-- The tail of `travModeBalanced` after the child loop: concatenate the
children's renders; with zero successful children in render-only the call
reports failure, otherwise success (the failed children are handed to
`renderNodeCoarser`). -/
def balancedCombine (rs : List (List TravTree × Bool)) (renderOnly : Bool) :
    List TravTree × Bool :=
  ((rs.map Prod.fst).flatten,
   !((rs.all (fun p => !p.2)) && renderOnly))

mutual
/-- Embedding of `CameraImpl::travModeBalanced` under frozen resources:
the list of nodes on which `renderNode` is invoked and the returned boolean.
`renderNodeCoarser` (defined outside this repository slice) re-emits the
draws of an already-determined ancestor and is not a `renderNode` call on the
child, so it contributes nothing to the list. -/
def balancedRender : TravTree → Bool → List TravTree × Bool
  | .mk d cs, renderOnly =>
    if renderOnly then
      if !d.hasMeta then ([], false)
      else if !d.visible then ([], true)
      else if d.determined then ([TravTree.mk d cs], true)
      else balancedCombine (balancedForest cs true) true
    else
      if !d.initOk then ([], false)
      else if !d.visible then ([], true)
      else if d.coarse || cs.isEmpty then
        if detDraws d then ([TravTree.mk d cs], true)
        else balancedCombine (balancedForest cs true) true
      else balancedCombine (balancedForest cs false) false
/-- The child loop of `travModeBalanced`: each child's render list and
returned boolean. -/
def balancedForest : TravForest → Bool → List (List TravTree × Bool)
  | .nil, _ => []
  | .cons t f, ro => balancedRender t ro :: balancedForest f ro
end

mutual
/-- Embedding of `CameraImpl::travModeStable` under frozen resources: mode 0
is the default, mode 1 load-only, mode 2 render-only; result is the list of
nodes on which `renderNode` is invoked plus the returned boolean. -/
def stableRender : TravTree → Nat → List TravTree × Bool
  | .mk d cs, mode =>
    if mode = 2 then
      if !d.hasMeta then ([], false)
      else if !d.visible then ([], true)
      else if d.determined then ([TravTree.mk d cs], true)
      else (((stableForest cs 2).map Prod.fst).flatten, true)
    else
      if !d.initOk then ([], false)
      else if !d.visible then ([], true)
      else if d.coarse || cs.isEmpty then
        if mode = 1 then ([], detDraws d)
        else if detDraws d then ([TravTree.mk d cs], true)
        else (((stableForest cs 2).map Prod.fst).flatten, true)
      else if mode = 0 && d.determined && !((stableForest cs 1).all (fun p => p.2)) then
        ([TravTree.mk d cs], true)
      else
        (((stableForest cs mode).map Prod.fst).flatten,
         (stableForest cs mode).all (fun p => p.2))
/-- The child loop of `travModeStable`. -/
def stableForest : TravForest → Nat → List (List TravTree × Bool)
  | .nil, _ => []
  | .cons t f, m => stableRender t m :: stableForest f m
end

/-- The children of a forest as a list. -/
def TravForest.toList : TravForest → List TravTree
  | .nil => []
  | .cons t f => t :: toList f

theorem prepare_state_core (b : BoundInfo) (nodeId localId : TileId) (alpha : Option ℚ)
    (bv : Validity) (bf : Nat → Nat)
    (hmin : b.lodRangeMin ≤ nodeId.lod)
    (hx1 : b.tileRangeLoX ≤ nodeId.x >>> (nodeId.lod - b.lodRangeMin))
    (hx2 : nodeId.x >>> (nodeId.lod - b.lodRangeMin) ≤ b.tileRangeHiX)
    (hy1 : b.tileRangeLoY ≤ nodeId.y >>> (nodeId.lod - b.lodRangeMin))
    (hy2 : nodeId.y >>> (nodeId.lod - b.lodRangeMin) ≤ b.tileRangeHiY) :
    (prepare (some b) nodeId localId alpha bv bf).state.depth = nodeId.lod - b.lodRangeMax
    ∧ (prepare (some b) nodeId localId alpha bv bf).state.orig = ⟨nodeId, localId⟩ := by
  simp only [prepare]
  rw [if_neg (by omega), if_neg (by omega), if_neg (by omega)]
  cases b.hasMetaUrl <;> cases bv <;> simp <;> split <;> simp <;> split <;> simp

/-- C1: for every tile `(lod, x, y)` (its local id coinciding with its id) and
bound layer passing the range checks, `prepare` computes
`depth = max(0, lod - lodRange.max)`; `uvMatrix` is the identity at depth 0
and otherwise `[[s,0,tx],[0,s,ty],[0,0,1]]` with `s = 1/(1<<depth)`,
`tx = s*(x - ((x>>depth)<<depth))`, `ty = 1 - s - s*(y - ((y>>depth)<<depth))`. -/
theorem boundLayer_uvMatrix (b : BoundInfo) (nodeId : TileId) (alpha : Option ℚ)
    (bv : Validity) (bf : Nat → Nat)
    (hmin : b.lodRangeMin ≤ nodeId.lod)
    (hx1 : b.tileRangeLoX ≤ nodeId.x >>> (nodeId.lod - b.lodRangeMin))
    (hx2 : nodeId.x >>> (nodeId.lod - b.lodRangeMin) ≤ b.tileRangeHiX)
    (hy1 : b.tileRangeLoY ≤ nodeId.y >>> (nodeId.lod - b.lodRangeMin))
    (hy2 : nodeId.y >>> (nodeId.lod - b.lodRangeMin) ≤ b.tileRangeHiY) :
    (((prepare (some b) nodeId nodeId alpha bv bf).state.depth : ℤ)
        = max ((nodeId.lod : ℤ) - (b.lodRangeMax : ℤ)) 0)
    ∧ ((prepare (some b) nodeId nodeId alpha bv bf).state.depth = 0 →
        uvMatrix (prepare (some b) nodeId nodeId alpha bv bf).state = identityMat3)
    ∧ (0 < (prepare (some b) nodeId nodeId alpha bv bf).state.depth →
        uvMatrix (prepare (some b) nodeId nodeId alpha bv bf).state =
          ⟨1 / ((1 <<< (prepare (some b) nodeId nodeId alpha bv bf).state.depth : Nat) : ℚ),
           0,
           (1 / ((1 <<< (prepare (some b) nodeId nodeId alpha bv bf).state.depth : Nat) : ℚ))
             * ((nodeId.x : ℚ)
                - (((nodeId.x >>> (prepare (some b) nodeId nodeId alpha bv bf).state.depth)
                      <<< (prepare (some b) nodeId nodeId alpha bv bf).state.depth : Nat) : ℚ)),
           0,
           1 / ((1 <<< (prepare (some b) nodeId nodeId alpha bv bf).state.depth : Nat) : ℚ),
           1 - 1 / ((1 <<< (prepare (some b) nodeId nodeId alpha bv bf).state.depth : Nat) : ℚ)
             - (1 / ((1 <<< (prepare (some b) nodeId nodeId alpha bv bf).state.depth : Nat) : ℚ))
               * ((nodeId.y : ℚ)
                  - (((nodeId.y >>> (prepare (some b) nodeId nodeId alpha bv bf).state.depth)
                        <<< (prepare (some b) nodeId nodeId alpha bv bf).state.depth : Nat) : ℚ)),
           0, 0, 1⟩) := by
  obtain ⟨hd, ho⟩ := prepare_state_core b nodeId nodeId alpha bv bf hmin hx1 hx2 hy1 hy2
  refine ⟨by rw [hd]; omega, ?_, ?_⟩
  · intro h0
    rw [uvMatrix, if_pos h0]
  · intro hpos
    rw [uvMatrix, if_neg (by omega), ho]
    simp

/-- C1 witness: tile `(lod=10, x=400, y=300)` with `lodRange.max = 8` gives
depth 2, scale 1/4, tx 0, ty 3/4. -/
theorem boundLayer_uvMatrix_witness :
    (prepare (some ⟨0, 8, 0, 0, 1000000, 1000000, false, false⟩) ⟨10, 400, 300⟩ ⟨10, 400, 300⟩
        none Validity.valid (fun _ => 0)).state.depth = 2
    ∧ uvMatrix (prepare (some ⟨0, 8, 0, 0, 1000000, 1000000, false, false⟩) ⟨10, 400, 300⟩
        ⟨10, 400, 300⟩ none Validity.valid (fun _ => 0)).state
      = ⟨1/4, 0, 0, 0, 1/4, 3/4, 0, 0, 1⟩ := by
  have h := boundLayer_uvMatrix ⟨0, 8, 0, 0, 1000000, 1000000, false, false⟩ ⟨10, 400, 300⟩
    none Validity.valid (fun _ => 0) (by decide) (by decide) (by decide) (by decide) (by decide)
  have hd : (prepare (some ⟨0, 8, 0, 0, 1000000, 1000000, false, false⟩) ⟨10, 400, 300⟩
      ⟨10, 400, 300⟩ none Validity.valid (fun _ => 0)).state.depth = 2 := by
    have h1 := h.1
    norm_num at h1
    omega
  refine ⟨hd, ?_⟩
  have h3 := h.2.2 (by omega)
  rw [h3, hd]
  norm_num [Nat.shiftLeft_eq, Nat.shiftRight_eq_div_pow]

/-- C7: `prepare` rejects the layer with `Invalid`, before any bound metatile
is fetched, when `lod < lodRange.min` or when the coordinates shifted right by
`lod - lodRange.min` fall outside `tileRange` in either axis. -/
theorem prepare_range_rejection (b : BoundInfo) (nodeId localId : TileId)
    (alpha : Option ℚ) (bv : Validity) (bf : Nat → Nat) :
    (nodeId.lod < b.lodRangeMin →
      prepare (some b) nodeId localId alpha bv bf
        = ⟨Validity.invalid, boundParamInit, false⟩)
    ∧ ((nodeId.x >>> (nodeId.lod - b.lodRangeMin) < b.tileRangeLoX
        ∨ b.tileRangeHiX < nodeId.x >>> (nodeId.lod - b.lodRangeMin)
        ∨ nodeId.y >>> (nodeId.lod - b.lodRangeMin) < b.tileRangeLoY
        ∨ b.tileRangeHiY < nodeId.y >>> (nodeId.lod - b.lodRangeMin)) →
      prepare (some b) nodeId localId alpha bv bf
        = ⟨Validity.invalid, boundParamInit, false⟩) := by
  constructor
  · intro h
    simp only [prepare]
    rw [if_pos h]
  · intro h
    simp only [prepare]
    split
    · rfl
    · split
      · rfl
      · split
        · rfl
        · omega

/-- C7 witness: a tile below the lod range, and a tile outside the tile
range, are both rejected without touching the bound metatile. -/
theorem prepare_range_rejection_witness :
    prepare (some ⟨5, 10, 0, 0, 10, 10, true, false⟩) ⟨3, 0, 0⟩ ⟨3, 0, 0⟩
        none Validity.valid (fun _ => 0)
      = ⟨Validity.invalid, boundParamInit, false⟩
    ∧ prepare (some ⟨5, 10, 0, 0, 10, 10, true, false⟩) ⟨7, 500, 0⟩ ⟨7, 500, 0⟩
        none Validity.valid (fun _ => 0)
      = ⟨Validity.invalid, boundParamInit, false⟩ :=
  ⟨(prepare_range_rejection ⟨5, 10, 0, 0, 10, 10, true, false⟩ ⟨3, 0, 0⟩ ⟨3, 0, 0⟩
      none Validity.valid (fun _ => 0)).1 (by decide),
   (prepare_range_rejection ⟨5, 10, 0, 0, 10, 10, true, false⟩ ⟨7, 500, 0⟩ ⟨7, 500, 0⟩
      none Validity.valid (fun _ => 0)).2 (by decide)⟩

/-- C9: for every mesh spec with a positive index count, `Mesh::load` uploads
an element buffer of 16-bit values holding each 32-bit index reduced modulo
65536; no failure path exists, and any index of value 65536 or more is stored
as a different (corrupted) value. -/
theorem mesh_index_truncation (spec : GpuMeshSpec) (h : 0 < spec.indicesCount) :
    ∃ out, meshLoadIndexBuffer spec = some out
      ∧ out.length = min spec.indicesCount spec.indices.length
      ∧ (∀ i, i < out.length → out.getD i 0 = spec.indices.getD i 0 % 65536)
      ∧ (∀ i, i < out.length → 65536 ≤ spec.indices.getD i 0 →
          out.getD i 0 ≠ spec.indices.getD i 0) := by
  refine ⟨(spec.indices.take spec.indicesCount).map (fun i => i % 65536), ?_, ?_, ?_, ?_⟩
  · simp [meshLoadIndexBuffer, Nat.pos_iff_ne_zero.mp h]
  · simp [Nat.min_comm]
  · intro i hi
    simp only [List.length_map, List.length_take] at hi
    have hi2 : i < spec.indices.length := lt_of_lt_of_le hi (min_le_right _ _)
    rw [List.getD_eq_getElem _ _ (by simpa using hi), List.getD_eq_getElem _ _ hi2,
      List.getElem_map, List.getElem_take]
  · intro i hi hbig
    have h1 := List.getD_eq_getElem ((spec.indices.take spec.indicesCount).map
      (fun i => i % 65536)) 0 hi
    simp only [List.length_map, List.length_take] at hi
    have hi2 : i < spec.indices.length := lt_of_lt_of_le hi (min_le_right _ _)
    rw [h1, List.getElem_map, List.getElem_take, ← List.getD_eq_getElem spec.indices 0 hi2]
    omega

/-- C9 witness: the spec with indices `[0, 70000, 65536]` uploads
`[0, 4464, 0]`; the index values 70000 and 65536 are corrupted. -/
theorem mesh_index_truncation_witness :
    0 < (3 : Nat) ∧ ∃ out, meshLoadIndexBuffer ⟨3, 3, [0, 70000, 65536]⟩ = some out
      ∧ out.length = min 3 ([0, 70000, 65536] : List Nat).length
      ∧ (∀ i, i < out.length →
          out.getD i 0 = ([0, 70000, 65536] : List Nat).getD i 0 % 65536)
      ∧ (∀ i, i < out.length → 65536 ≤ ([0, 70000, 65536] : List Nat).getD i 0 →
          out.getD i 0 ≠ ([0, 70000, 65536] : List Nat).getD i 0) :=
  ⟨by decide, mesh_index_truncation ⟨3, 3, [0, 70000, 65536]⟩ (by decide)⟩

theorem childIndex_eq_bits (x y : Nat) :
    childIndexInParent x y = (x &&& 1) ||| ((y &&& 1) <<< 1) := by
  rw [Nat.and_one_is_mod, Nat.and_one_is_mod, Nat.shiftLeft_eq]
  rcases Nat.mod_two_eq_zero_or_one x with hx | hx <;>
    rcases Nat.mod_two_eq_zero_or_one y with hy | hy <;>
      simp [childIndexInParent, hx, hy]

/-- C4: for a non-root traverse node, the child's metatile resource for
surface `i` is requested if and only if the parent holds a metatile in slot
`i` and the parent's metanode flags have the bit `ulChild << c` set, with
`c = (x&1) | ((y&1)<<1)` the child's index within the parent; otherwise the
slot stays empty and no fetch is issued. -/
theorem childMetaTile_request_iff (slots : List (Option Nat)) (nodeId : TileId)
    (i : Nat) (hi : i < slots.length) :
    (initChildMetaSlots slots nodeId).length = slots.length
    ∧ (((initChildMetaSlots slots nodeId).getD i none).isSome = true ↔
        ∃ fl, slots.getD i none = some fl ∧
          fl &&& (ulChildFlag <<< ((nodeId.x &&& 1) ||| ((nodeId.y &&& 1) <<< 1))) ≠ 0) := by
  constructor
  · simp [initChildMetaSlots]
  · rw [← childIndex_eq_bits]
    have hlen : (initChildMetaSlots slots nodeId).length = slots.length := by
      simp [initChildMetaSlots]
    rw [List.getD_eq_getElem _ _ (by omega : i < (initChildMetaSlots slots nodeId).length)]
    simp only [initChildMetaSlots, List.getElem_map, List.getElem_range]
    cases hslot : slots.getD i none with
    | none => simp
    | some fl =>
      simp only [hslot]
      by_cases hbit : fl &&& (ulChildFlag <<< childIndexInParent nodeId.x nodeId.y) = 0
      · simp [hbit]
      · simp [hbit]

/-- C4 witness: with the parent holding a metatile whose metanode flags word
is 16 (= ulChild, child index 0 for the child tile (5,2,2)), the fetch for
slot 0 is issued. -/
theorem childMetaTile_request_iff_witness :
    (((initChildMetaSlots [some 16, none] ⟨5, 2, 2⟩).getD 0 none).isSome = true) :=
  (childMetaTile_request_iff [some 16, none] ⟨5, 2, 2⟩ 0 (by decide)).2.mpr
    ⟨16, by decide, by decide⟩

theorem selectSurface_skip (ts : Option (List SurfaceInfo))
    (p : SurfaceInfo × Option MetaNodeRec) (l : List (SurfaceInfo × Option MetaNodeRec))
    (hp : skipsPair p = true) :
    selectSurface ts (p :: l) = selectSurface ts l := by
  obtain ⟨s, mn⟩ := p
  cases mn with
  | none => rfl
  | some n =>
    simp only [skipsPair, Bool.or_eq_true, decide_eq_true_eq, Bool.not_eq_eq_eq_not,
      Bool.not_true] at hp
    rcases hp with hp | hp
    · simp [selectSurface, hp]
    · simp only [selectSurface, hp]
      split <;> simp

/-- C2: in the surface selection of `travDetermineMeta`, when the layer has a
tileset stack (built by `TilesetMapping::update`, which prepends a
placeholder because `sourceReference` is one-based) and the first
non-skipped metanode has geometry, the rendered surface is the tileset-stack
entry at index `sourceReference - 1`; with no tileset stack it is the current
surface of the surface stack. -/
theorem surface_from_tilesetStack (entries : List SurfaceInfo)
    (pre : List (SurfaceInfo × Option MetaNodeRec)) (s : SurfaceInfo)
    (n : MetaNodeRec) (rest : List (SurfaceInfo × Option MetaNodeRec))
    (hpre : ∀ p ∈ pre, skipsPair p = true)
    (halien : n.alien = s.alien) (hgeom : n.geometry = true)
    (h1 : 1 ≤ n.sourceReference) (h2 : n.sourceReference ≤ entries.length) :
    selectSurface (some (buildTilesetStack entries)) (pre ++ (s, some n) :: rest)
      = some (entries.getD (n.sourceReference - 1) placeholderSurface)
    ∧ selectSurface none (pre ++ (s, some n) :: rest) = some s := by
  induction pre with
  | nil =>
    simp only [List.nil_append]
    constructor
    · simp only [selectSurface, halien, hgeom]
      rw [if_neg (by simp), if_pos trivial]
      obtain ⟨k, hk⟩ : ∃ k, n.sourceReference = k + 1 := ⟨n.sourceReference - 1, by omega⟩
      simp [buildTilesetStack, hk]
    · simp only [selectSurface, halien, hgeom]
      rw [if_neg (by simp), if_pos trivial]
  | cons p pre ih =>
    have hp := hpre p (List.mem_cons_self p pre)
    have hrest : ∀ q ∈ pre, skipsPair q = true := fun q hq => hpre q (List.mem_cons_of_mem p hq)
    obtain ⟨ihl, ihr⟩ := ih hrest
    rw [List.cons_append, selectSurface_skip _ _ _ hp, selectSurface_skip _ _ _ hp]
    exact ⟨ihl, ihr⟩

/-- C2 witness: with tileset entries `[⟨7⟩, ⟨9⟩]` and the first available,
alien-matching, geometry-carrying metanode having `sourceReference = 2`, the
rendered surface is entry index 1 (`⟨9⟩`); without a tileset stack it is the
current surface. -/
theorem surface_from_tilesetStack_witness :
    selectSurface (some (buildTilesetStack [⟨7, false⟩, ⟨9, false⟩]))
        [(⟨1, false⟩, none), (⟨2, false⟩, some ⟨true, false, 2⟩)]
      = some ⟨9, false⟩
    ∧ selectSurface none [(⟨1, false⟩, none), (⟨2, false⟩, some ⟨true, false, 2⟩)]
      = some ⟨2, false⟩ := by
  have h := surface_from_tilesetStack [⟨7, false⟩, ⟨9, false⟩] [(⟨1, false⟩, none)]
    ⟨2, false⟩ ⟨true, false, 2⟩ [] (by decide) (by decide) (by decide) (by decide) (by decide)
  exact h

theorem classifyGo_append (a : Bool) (l1 l2 : List BoundParam) :
    classifyGo a (l1 ++ l2) =
      classifyGo a l1
        ++ classifyGo (a || l1.any (fun b => !b.transparent && b.hasMask)) l2 := by
  induction l1 generalizing a with
  | nil => simp [classifyGo]
  | cons b l ih =>
    simp only [List.cons_append, classifyGo, List.any_cons]
    by_cases hb : b.transparent
    · simp [classifyGo, hb, ih]
    · by_cases hm : b.hasMask
      · cases a with
        | false => simp [classifyGo, hb, hm, ih]
        | true => simp [classifyGo, hb, hm, ih]
      · simp [classifyGo, hb, hm, ih]

theorem classifyGo_length (a : Bool) (l : List BoundParam) :
    (classifyGo a l).length = l.length := by
  induction l generalizing a with
  | nil => rfl
  | cons b rest ih =>
    simp only [classifyGo]
    split
    · simp [ih]
    · split
      · split <;> simp [ih]
      · simp [ih]

/-- C3: in the per-submesh draw classification, a non-transparent bound layer
carrying a texture mask lands on the first (depth-writing) draw list exactly
when no layer of the stack is plainly non-transparent-and-unmasked and no
earlier layer is non-transparent-and-masked — i.e. it is rendered transparent
unless it is the first such layer and no other depth-writing layer exists;
and an external-uv submesh emits its internal texture only when every bound
layer of the stack is transparent. -/
theorem maskedLayer_classification :
    (∀ (pre : List BoundParam) (b : BoundParam) (post : List BoundParam),
      b.transparent = false → b.hasMask = true →
      (((classifyBoundLayers (pre ++ b :: post)).getD pre.length (b, true)).2 = false ↔
        ((pre ++ b :: post).all (fun q => q.transparent || q.hasMask) = true
          ∧ pre.all (fun q => q.transparent || !q.hasMask) = true)))
    ∧ (∀ (sm : SubmeshData) (acc : SubAcc),
        sm.externalUv = true →
        STask.internalTask ∉ acc.opaq →
        STask.internalTask ∈ (submeshStep sm acc).opaq →
        sm.bls.all (fun q => q.transparent) = true) := by
  constructor
  · intro pre b post hbt hbm
    rw [classifyBoundLayers, classifyGo_append,
      List.getD_append_right _ _ _ _ (by rw [classifyGo_length])]
    rw [classifyGo_length, Nat.sub_self]
    simp only [classifyGo, hbt, hbm, Bool.false_eq_true, if_false, if_true]
    by_cases hA : (anyPlainLayerInit (pre ++ b :: post)
        || pre.any (fun q => !q.transparent && q.hasMask)) = true
    · rw [if_pos hA]
      simp only [List.getD_cons_zero]
      constructor
      · intro h
        exact absurd h (by simp)
      · intro ⟨h1, h2⟩
        exfalso
        rcases Bool.or_eq_true _ _ |>.mp hA with hA | hA
        · rw [anyPlainLayerInit, List.any_eq_true] at hA
          obtain ⟨q, hq, hq2⟩ := hA
          rw [List.all_eq_true] at h1
          have := h1 q hq
          revert hq2 this
          cases q.transparent <;> cases q.hasMask <;> simp
        · rw [List.any_eq_true] at hA
          obtain ⟨q, hq, hq2⟩ := hA
          rw [List.all_eq_true] at h2
          have := h2 q hq
          revert hq2 this
          cases q.transparent <;> cases q.hasMask <;> simp
    · rw [if_neg hA]
      simp only [List.getD_cons_zero]
      constructor
      · intro _
        rw [Bool.or_eq_true, not_or] at hA
        obtain ⟨hA1, hA2⟩ := hA
        constructor
        · rw [List.all_eq_true]
          intro q hq
          rw [anyPlainLayerInit] at hA1
          have hq2 : ¬ (!q.transparent && !q.hasMask) = true := by
            intro hc
            exact hA1 (List.any_eq_true.mpr ⟨q, hq, hc⟩)
          revert hq2
          cases q.transparent <;> cases q.hasMask <;> simp
        · rw [List.all_eq_true]
          intro q hq
          have hq2 : ¬ (!q.transparent && q.hasMask) = true := by
            intro hc
            exact hA2 (List.any_eq_true.mpr ⟨q, hq, hc⟩)
          revert hq2
          cases q.transparent <;> cases q.hasMask <;> simp
      · intro _
        trivial
  · intro sm acc hext hnotin hmem
    rw [submeshStep, if_pos hext] at hmem
    cases hv : sm.blsValidity with
    | indeterminate => rw [hv] at hmem; exact absurd hmem hnotin
    | invalid => rw [hv] at hmem; exact absurd hmem hnotin
    | valid =>
      rw [hv] at hmem
      simp only at hmem
      by_cases hall : sm.bls.all (fun q => q.transparent) = true
      · exact hall
      · exfalso
        rw [if_neg hall] at hmem
        simp only [List.mem_append, List.mem_map] at hmem
        rcases hmem with hmem | ⟨q, _, hq⟩
        · exact hnotin hmem
        · exact STask.noConfusion hq

/-- C3 witness: a single non-transparent masked layer is promoted to the
depth-writing list. -/
theorem maskedLayer_classification_witness :
    ((classifyBoundLayers [⟨false, true, 5⟩]).getD 0 (⟨false, true, 5⟩, true)).2 = false :=
  (maskedLayer_classification.1 [] ⟨false, true, 5⟩ [] rfl rfl).mpr ⟨by decide, by decide⟩

/-- C10: `travDetermineDraws` on a node that is already determined or has no
surface returns the current `determined` flag and leaves the node unchanged
(the initial `touchDraws` only refreshes the resource cache); in particular a
node with no surface never becomes determined by the call. -/
theorem travDetermineDraws_idempotent (n : TravNodeState) (o : DrawsOracle)
    (h : n.determined = true ∨ n.surface = none) :
    travDetermineDraws n o = (n, n.determined)
    ∧ (travDetermineDraws n o).1.determined = n.determined := by
  have he : travDetermineDraws n o = (n, n.determined) := by
    rw [travDetermineDraws]
    rcases h with h | h
    · rw [if_pos (by simp [h])]
    · rw [if_pos (by simp [h])]
  exact ⟨he, by rw [he]⟩

/-- C10 witness: a determined node, and a node without surface, are returned
unchanged with their current flag. -/
theorem travDetermineDraws_idempotent_witness :
    travDetermineDraws ⟨false, some 0, true, [], [], [], [], [], 0⟩
        ⟨⟨0, Validity.valid, [], fun _ => Validity.valid⟩,
         ⟨Validity.valid, Validity.valid, Validity.valid, 0⟩, 0⟩
      = (⟨false, some 0, true, [], [], [], [], [], 0⟩, true)
    ∧ travDetermineDraws ⟨false, none, false, [], [], [], [], [], 0⟩
        ⟨⟨0, Validity.valid, [], fun _ => Validity.valid⟩,
         ⟨Validity.valid, Validity.valid, Validity.valid, 0⟩, 0⟩
      = (⟨false, none, false, [], [], [], [], [], 0⟩, false) :=
  ⟨(travDetermineDraws_idempotent ⟨false, some 0, true, [], [], [], [], [], 0⟩
      ⟨⟨0, Validity.valid, [], fun _ => Validity.valid⟩,
       ⟨Validity.valid, Validity.valid, Validity.valid, 0⟩, 0⟩ (Or.inl rfl)).1,
   (travDetermineDraws_idempotent ⟨false, none, false, [], [], [], [], [], 0⟩
      ⟨⟨0, Validity.valid, [], fun _ => Validity.valid⟩,
       ⟨Validity.valid, Validity.valid, Validity.valid, 0⟩, 0⟩ (Or.inr rfl)).1⟩

/-- C8: when the resource the node's draws need is `Invalid` — the mesh
aggregate for a surface node, or the geodata style/features/tile for a
geodata node — `travDetermineDraws` clears the node's surface and returns
false, leaving the node undetermined with empty draw lists; any later call,
whatever the resource states, returns false without recomputing, so the node
is never retried for that surface. -/
theorem invalid_resource_clears_surface (n : TravNodeState) (o o' : DrawsOracle)
    (hdet : n.determined = false) (hop : n.opaq = [])
    (htr : n.transp = []) (hge : n.geodata = []) :
    (n.isGeodata = false → n.surface.isSome = true →
      n.resources.any (fun r => o.surf.pinnedValidity r = Validity.indeterminate) = false →
      o.surf.meshAggValidity = Validity.invalid →
      ((travDetermineDraws n o).2 = false
        ∧ (travDetermineDraws n o).1.surface = none
        ∧ (travDetermineDraws n o).1.determined = false
        ∧ (travDetermineDraws n o).1.opaq = []
        ∧ (travDetermineDraws n o).1.transp = []
        ∧ (travDetermineDraws n o).1.geodata = []
        ∧ travDetermineDraws (travDetermineDraws n o).1 o'
            = ((travDetermineDraws n o).1, false)))
    ∧ (n.isGeodata = true → n.surface.isSome = true →
      ((o.geo.styleValidity = Validity.invalid ∨ o.geo.featuresValidity = Validity.invalid)
        ∨ (o.geo.styleValidity = Validity.valid ∧ o.geo.featuresValidity = Validity.valid
            ∧ o.geo.geoValidity = Validity.invalid)) →
      ((travDetermineDraws n o).2 = false
        ∧ (travDetermineDraws n o).1.surface = none
        ∧ (travDetermineDraws n o).1.determined = false
        ∧ (travDetermineDraws n o).1.opaq = []
        ∧ (travDetermineDraws n o).1.transp = []
        ∧ (travDetermineDraws n o).1.geodata = []
        ∧ travDetermineDraws (travDetermineDraws n o).1 o'
            = ((travDetermineDraws n o).1, false))) := by
  constructor
  · intro hgeo hsurf hany hagg
    obtain ⟨v, hv⟩ := Option.isSome_iff_exists.mp hsurf
    have h1 : travDetermineDraws n o =
        ({ n with
            priority := o.newPriority
            surface := none
            resources := []
            determined := false }, false) := by
      rw [travDetermineDraws]
      rw [if_neg (by simp [hv, hdet])]
      simp only [hgeo, Bool.false_eq_true, if_false]
      rw [travDetermineDrawsSurface]
      rw [if_neg (by simp only [hany]; exact Bool.false_ne_true)]
      rw [hagg]
    rw [h1]
    refine ⟨rfl, rfl, rfl, hop, htr, hge, ?_⟩
    rw [travDetermineDraws]
    rw [if_pos (by simp)]
  · intro hgeo hsurf hcase
    obtain ⟨v, hv⟩ := Option.isSome_iff_exists.mp hsurf
    have h1 : travDetermineDraws n o =
        ({ n with
            priority := o.newPriority
            surface := none
            determined := false }, false) := by
      rw [travDetermineDraws]
      rw [if_neg (by simp [hv, hdet])]
      simp only [hgeo, if_true]
      rw [travDetermineDrawsGeodata]
      rcases hcase with hcase | ⟨hs, hf, hgv⟩
      · rw [if_pos hcase]
      · rw [if_neg (by simp [hs, hf]), if_neg (by simp [hs, hf]), hgv]
    rw [h1]
    refine ⟨rfl, rfl, rfl, hop, htr, hge, ?_⟩
    rw [travDetermineDraws]
    rw [if_pos (by simp)]

/-- C8 witness: a surface node whose mesh aggregate is invalid, evaluated
concretely: the surface is cleared, the call fails, and the node is never
retried. -/
theorem invalid_resource_clears_surface_witness :
    (travDetermineDraws ⟨false, some 3, false, [], [], [], [], [], 0⟩
        ⟨⟨0, Validity.invalid, [], fun _ => Validity.valid⟩,
         ⟨Validity.valid, Validity.valid, Validity.valid, 0⟩, 1⟩).2 = false
    ∧ (travDetermineDraws ⟨false, some 3, false, [], [], [], [], [], 0⟩
        ⟨⟨0, Validity.invalid, [], fun _ => Validity.valid⟩,
         ⟨Validity.valid, Validity.valid, Validity.valid, 0⟩, 1⟩).1.surface = none := by
  have h := (invalid_resource_clears_surface ⟨false, some 3, false, [], [], [], [], [], 0⟩
    ⟨⟨0, Validity.invalid, [], fun _ => Validity.valid⟩,
     ⟨Validity.valid, Validity.valid, Validity.valid, 0⟩, 1⟩
    ⟨⟨0, Validity.invalid, [], fun _ => Validity.valid⟩,
     ⟨Validity.valid, Validity.valid, Validity.valid, 0⟩, 1⟩
    rfl rfl rfl rfl).1 rfl rfl rfl rfl
  exact ⟨h.1, h.2.1⟩

/-- C6 counterexample: in Hierarchical traverse mode, with the focus point
inside the box (distance 0) and the node at lod 10,
`computeResourcePriority` returns `100/lod = 10` while the claimed formula
`1e6/(d+1)` gives 1000000, so the resource priority does not equal the
claimed formula. -/
theorem resourcePriority_hierarchical_cex :
    computeResourcePriority TraverseMode.hierarchical 10 zeroTravDistArgs = 10
    ∧ 1000000 / (mapTravDistance zeroTravDistArgs + 1) = (1000000 : ℚ)
    ∧ (10 : ℚ) ≠ 1000000 := by
  refine ⟨?_, ?_, by norm_num⟩ <;>
    norm_num [computeResourcePriority, mapTravDistance, aabbPointDist, axisExcess,
      zeroTravDistArgs]

/-- C6 amended: for every traverse node with meta populated,
`updateNodePriority` sets the priority to `1e6/(d+1)` with `d` the
physical-SRS axis-aligned-box distance from the focus point; the resource
priority equals `1e6/(d'+1)` with `d'` per `MapImpl::travDistance` (node SRS
with geometric extents when available and `debugDisableMeta5` is off,
physical SRS otherwise) in every traverse mode except Hierarchical, where it
is `100/lod` instead. -/
theorem priority_formula_amended (hasMeta : Bool) (pp : Option ℚ)
    (f lo hi : Vec3q) (mode : TraverseMode) (lod : Nat) (a : TravDistArgs) :
    (hasMeta = true →
      updateNodePriority hasMeta pp f lo hi = 1000000 / (aabbPointDist f lo hi + 1))
    ∧ (mode ≠ TraverseMode.hierarchical →
      computeResourcePriority mode lod a = 1000000 / (mapTravDistance a + 1))
    ∧ computeResourcePriority TraverseMode.hierarchical lod a = 100 / (lod : ℚ) := by
  refine ⟨fun h => ?_, fun h => ?_, ?_⟩
  · rw [updateNodePriority.eq_def, if_pos h, camTravDistance]
  · rw [computeResourcePriority, if_neg h]
  · rw [computeResourcePriority, if_pos rfl]

/-- C6 witness: a node containing the focus point gets priority 1000000, and
in Flat mode the resource priority matches it. -/
theorem priority_formula_amended_witness :
    updateNodePriority true none ⟨0, 0, 0⟩ ⟨0, 0, 0⟩ ⟨0, 0, 0⟩ = 1000000
    ∧ computeResourcePriority TraverseMode.flat 5 zeroTravDistArgs = 1000000 := by
  have h := priority_formula_amended true none ⟨0, 0, 0⟩ ⟨0, 0, 0⟩ ⟨0, 0, 0⟩
    TraverseMode.flat 5 zeroTravDistArgs
  constructor
  · rw [h.1 rfl]
    norm_num [aabbPointDist, axisExcess]
  · rw [h.2.1 (by simp)]
    norm_num [mapTravDistance, aabbPointDist, axisExcess, zeroTravDistArgs]

theorem flatRenderForest_eq : ∀ (f : TravForest),
    flatRenderForest f = (f.toList.map flatRender).flatten
  | .nil => rfl
  | .cons t f => by
    simp [flatRenderForest, TravForest.toList, flatRenderForest_eq f]

theorem balancedForest_eq : ∀ (f : TravForest) (ro : Bool),
    balancedForest f ro = f.toList.map (fun t => balancedRender t ro)
  | .nil, _ => rfl
  | .cons t f, ro => by
    simp [balancedForest, TravForest.toList, balancedForest_eq f ro]

theorem stableForest_eq : ∀ (f : TravForest) (m : Nat),
    stableForest f m = f.toList.map (fun t => stableRender t m)
  | .nil, _ => rfl
  | .cons t f, m => by
    simp [stableForest, TravForest.toList, stableForest_eq f m]

theorem sizeOf_mem_toList : ∀ (t : TravTree) (f : TravForest), t ∈ f.toList →
    sizeOf t < sizeOf f
  | t, .nil, h => by simp [TravForest.toList] at h
  | t, .cons s f, h => by
    simp only [TravForest.toList, List.mem_cons] at h
    rcases h with rfl | h
    · simp only [TravForest.cons.sizeOf_spec]
      omega
    · have := sizeOf_mem_toList t f h
      simp only [TravForest.cons.sizeOf_spec]
      omega

theorem mem_forest_part (t : TravTree) (rs : List (List TravTree × Bool))
    (h : t ∈ (rs.map Prod.fst).flatten) : ∃ p ∈ rs, t ∈ p.1 := by
  rw [List.mem_flatten] at h
  obtain ⟨l, hl, htl⟩ := h
  rw [List.mem_map] at hl
  obtain ⟨p, hp, rfl⟩ := hl
  exact ⟨p, hp, htl⟩

theorem sizeOf_childs_lt (d : TravData) (cs : TravForest) :
    sizeOf cs < sizeOf (TravTree.mk d cs) := by
  simp only [TravTree.mk.sizeOf_spec]
  omega

theorem flat_rendered_aux : ∀ (k : Nat) (root : TravTree), sizeOf root < k →
    ∀ t ∈ flatRender root,
      t.data.visible = true ∧ (t.data.coarse = true ∨ t.childs.isEmpty = true) := by
  intro k
  induction k with
  | zero => intro root h; omega
  | succ k ih =>
    intro root hk t ht
    obtain ⟨d, cs⟩ := root
    simp only [flatRender] at ht
    split at ht
    · simp at ht
    · split at ht
      · simp at ht
      · split at ht
        · split at ht
          · rw [List.mem_singleton] at ht
            subst ht
            simp only [TravTree.data, TravTree.childs]
            rename_i hV hC _
            refine ⟨by simpa using hV, by simpa using hC⟩
          · simp at ht
        · rw [flatRenderForest_eq] at ht
          obtain ⟨l, hl, htl⟩ := List.mem_flatten.mp ht
          obtain ⟨c, hc, rfl⟩ := List.mem_map.mp hl
          have hcs : sizeOf c < sizeOf cs := sizeOf_mem_toList c cs hc
          have hsz : sizeOf cs < sizeOf (TravTree.mk d cs) := sizeOf_childs_lt d cs
          exact ih c (by omega) t htl

theorem mem_balancedChilds (t : TravTree) (cs : TravForest) (ro roc : Bool)
    (h : t ∈ (balancedCombine (balancedForest cs ro) roc).1) :
    ∃ c ∈ cs.toList, t ∈ (balancedRender c ro).1 := by
  simp only [balancedCombine] at h
  obtain ⟨p, hp, htp⟩ := mem_forest_part t _ h
  rw [balancedForest_eq] at hp
  obtain ⟨c, hc, rfl⟩ := List.mem_map.mp hp
  exact ⟨c, hc, htp⟩

theorem mem_stableChilds (t : TravTree) (cs : TravForest) (m : Nat)
    (h : t ∈ ((stableForest cs m).map Prod.fst).flatten) :
    ∃ c ∈ cs.toList, t ∈ (stableRender c m).1 := by
  obtain ⟨p, hp, htp⟩ := mem_forest_part t _ h
  rw [stableForest_eq] at hp
  obtain ⟨c, hc, rfl⟩ := List.mem_map.mp hp
  exact ⟨c, hc, htp⟩

theorem balanced_rendered_aux : ∀ (k : Nat) (root : TravTree) (ro : Bool), sizeOf root < k →
    ∀ t ∈ (balancedRender root ro).1, t.data.visible = true := by
  intro k
  induction k with
  | zero => intro root ro h; omega
  | succ k ih =>
    intro root ro hk t ht
    obtain ⟨d, cs⟩ := root
    have hrec : ∀ (ro' : Bool), (∃ c ∈ cs.toList, t ∈ (balancedRender c ro').1) →
        t.data.visible = true := by
      rintro ro' ⟨c, hc, htc⟩
      have h1 := sizeOf_mem_toList c cs hc
      have h2 := sizeOf_childs_lt d cs
      exact ih c ro' (by omega) t htc
    simp only [balancedRender] at ht
    split at ht
    · split at ht
      · simp at ht
      · split at ht
        · simp at ht
        · rename_i hV
          split at ht
          · rw [List.mem_singleton] at ht
            subst ht
            simpa [TravTree.data] using hV
          · exact hrec true (mem_balancedChilds t cs true true ht)
    · split at ht
      · simp at ht
      · split at ht
        · simp at ht
        · rename_i hV
          split at ht
          · split at ht
            · rw [List.mem_singleton] at ht
              subst ht
              simpa [TravTree.data] using hV
            · exact hrec true (mem_balancedChilds t cs true true ht)
          · exact hrec false (mem_balancedChilds t cs false false ht)

theorem stable_rendered_aux : ∀ (k : Nat) (root : TravTree) (mode : Nat), sizeOf root < k →
    ∀ t ∈ (stableRender root mode).1, t.data.visible = true := by
  intro k
  induction k with
  | zero => intro root mode h; omega
  | succ k ih =>
    intro root mode hk t ht
    obtain ⟨d, cs⟩ := root
    have hrec : ∀ (m : Nat), (∃ c ∈ cs.toList, t ∈ (stableRender c m).1) →
        t.data.visible = true := by
      rintro m ⟨c, hc, htc⟩
      have h1 := sizeOf_mem_toList c cs hc
      have h2 := sizeOf_childs_lt d cs
      exact ih c m (by omega) t htc
    simp only [stableRender] at ht
    split at ht
    · split at ht
      · simp at ht
      · split at ht
        · simp at ht
        · rename_i hV
          split at ht
          · rw [List.mem_singleton] at ht
            subst ht
            simpa [TravTree.data] using hV
          · exact hrec 2 (mem_stableChilds t cs 2 ht)
    · split at ht
      · simp at ht
      · split at ht
        · simp at ht
        · rename_i hV
          split at ht
          · split at ht
            · simp at ht
            · split at ht
              · rw [List.mem_singleton] at ht
                subst ht
                simpa [TravTree.data] using hV
              · exact hrec 2 (mem_stableChilds t cs 2 ht)
          · split at ht
            · rw [List.mem_singleton] at ht
              subst ht
              simpa [TravTree.data] using hV
            · exact hrec mode (mem_stableChilds t cs mode ht)

/-- C5 counterexample: under the Flat strategy, a visible leaf node (no
children) that fails the coarseness test but has all resources ready is
still rendered, so a rendered node need not satisfy
`coarsenessTest(t) == true`. -/
theorem renderNode_coarseness_cex :
    ¬ (∀ t : TravTree,
        t ∈ flatRender (TravTree.mk ⟨true, true, true, false, false, true, true⟩ .nil) →
        t.data.visible = true ∧ t.data.coarse = true) := by
  intro h
  have hm : (TravTree.mk ⟨true, true, true, false, false, true, true⟩ .nil)
      ∈ flatRender (TravTree.mk ⟨true, true, true, false, false, true, true⟩ .nil) := by
    have he : flatRender (TravTree.mk ⟨true, true, true, false, false, true, true⟩ .nil)
        = [TravTree.mk ⟨true, true, true, false, false, true, true⟩ .nil] := rfl
    rw [he]
    exact List.mem_singleton.mpr rfl
  have h2 := (h _ hm).2
  simp [TravTree.data] at h2

/-- C5 amended: for the Flat and Balanced strategies (and Stable, in every
mode), every node on which `renderNode` is invoked satisfies
`visibility(t) == true`; for Flat it additionally satisfies
`coarsenessTest(t) == true` or has no children (a ready leaf failing the
coarseness test is still rendered), while the render-only and fallback
branches of Balanced and Stable render determined nodes without re-checking
the coarseness test. -/
theorem rendered_node_visibility (t root : TravTree) (ro : Bool) (mode : Nat) :
    (t ∈ flatRender root →
      t.data.visible = true ∧ (t.data.coarse = true ∨ t.childs.isEmpty = true))
    ∧ (t ∈ (balancedRender root ro).1 → t.data.visible = true)
    ∧ (t ∈ (stableRender root mode).1 → t.data.visible = true) :=
  ⟨fun h => flat_rendered_aux (sizeOf root + 1) root (by omega) t h,
   fun h => balanced_rendered_aux (sizeOf root + 1) root ro (by omega) t h,
   fun h => stable_rendered_aux (sizeOf root + 1) root mode (by omega) t h⟩

/-- C5 witness: a visible, coarse-enough, determined leaf is rendered by all
three strategies and satisfies the amended property. -/
theorem rendered_node_visibility_witness :
    (TravTree.mk ⟨true, true, true, true, true, true, true⟩ .nil).data.visible = true
    ∧ ((TravTree.mk ⟨true, true, true, true, true, true, true⟩ .nil).data.coarse = true
        ∨ (TravTree.mk ⟨true, true, true, true, true, true, true⟩ .nil).childs.isEmpty = true) := by
  have hm : (TravTree.mk ⟨true, true, true, true, true, true, true⟩ .nil)
      ∈ flatRender (TravTree.mk ⟨true, true, true, true, true, true, true⟩ .nil) := by
    have he : flatRender (TravTree.mk ⟨true, true, true, true, true, true, true⟩ .nil)
        = [TravTree.mk ⟨true, true, true, true, true, true, true⟩ .nil] := rfl
    rw [he]
    exact List.mem_singleton.mpr rfl
  exact (rendered_node_visibility
    (TravTree.mk ⟨true, true, true, true, true, true, true⟩ .nil)
    (TravTree.mk ⟨true, true, true, true, true, true, true⟩ .nil) false 0).1 hm

end Vts
